import Mathlib

/-!
Verification development for the `dns-network-scanner` repository
(`src/main.go`).  The Go program enumerates every IPv4 address of a CIDR
block, and for each address issues a DNS query for an encoded name against
the address itself, plus one query per configured additional domain,
persisting each successful (query, answer) pair.

The embedding below mirrors `main.go`:
  * `incRev` / `inc` is the byte-level address increment (`func inc`),
    with `ipToNat_inc` bridging it to arithmetic modulo 2^32;
  * `enumLoop` is the dispatch loop `for ip := ip.Mask(...); ipnet.Contains(ip); inc(ip)`
    over the numeric view of an address, fuelled so that a
    non-terminating loop is observable as `none`;
  * `parseCIDR` models `net.ParseCIDR` restricted to IPv4 syntax (the
    tool is IPv4-only), including the rejection of leading zeros in
    dotted-quad fields and acceptance of leading zeros in the prefix;
  * `queryDNS`, `queryAdditionalDNS`, `performDNSQuery` model the per-host
    coordinator; the network exchange and the database insert are the two
    external effects and are passed in as function parameters
    (`exch` returns the answer records or `none` on error;
    `persist` returns whether the `INSERT` succeeded);
  * `SchedStep` / `Reachable` give a small-step semantics of the
    semaphore-bounded goroutine pool of `main`.
-/

/-- One byte-level increment step of `func inc` on the REVERSED byte list
(Go iterates from the last byte): if the byte is below 255 it is
incremented and iteration stops, otherwise it is zeroed and the carry
moves to the next (more significant) byte. -/
def incRev : List Nat → List Nat
  | [] => []
  | b :: bs => if b < 255 then (b + 1) :: bs else 0 :: incRev bs

/-- `func inc(ip net.IP)` from `src/main.go`, as a function on the
big-endian byte list of the address. -/
def inc (ip : List Nat) : List Nat :=
  (incRev ip.reverse).reverse

/-- Numeric value of a big-endian byte list (base 256). -/
def ipToNat (ip : List Nat) : Nat :=
  ip.foldl (fun a b => a * 256 + b) 0

/-- The numeric view of `inc` on a 4-byte address: increment modulo 2^32. -/
def incNat (x : Nat) : Nat := (x + 1) % 2 ^ 32

/-- Bridge: on a well-formed 4-byte address, the byte-level `inc` of the Go
source is exactly increment modulo 2^32.  In particular
255.255.255.255 wraps to 0.0.0.0. -/
theorem ipToNat_inc (a b c d : Nat) (ha : a ≤ 255) (hb : b ≤ 255)
    (hc : c ≤ 255) (hd : d ≤ 255) :
    ipToNat (inc [a, b, c, d]) = incNat (ipToNat [a, b, c, d]) := by
  by_cases h1 : d < 255
  · simp only [inc, List.reverse, incRev, h1, if_true, ipToNat, incNat,
      List.reverseAux, List.foldl]
    omega
  · have hd' : d = 255 := by omega
    subst hd'
    by_cases h2 : c < 255
    · simp only [inc, List.reverse, incRev, h2, if_true, ipToNat, incNat,
        List.reverseAux, List.foldl]
      omega
    · have hc' : c = 255 := by omega
      subst hc'
      by_cases h3 : b < 255
      · simp only [inc, List.reverse, incRev, h3, if_true, ipToNat, incNat,
          List.reverseAux, List.foldl]
        omega
      · have hb' : b = 255 := by omega
        subst hb'
        by_cases h4 : a < 255
        · simp only [inc, List.reverse, incRev, h4, if_true, ipToNat, incNat,
            List.reverseAux, List.foldl]
          omega
        · have ha' : a = 255 := by omega
          subst ha'
          simp only [inc, List.reverse, incRev, ipToNat, incNat,
            List.reverseAux, List.foldl]
          omega

/-- `ipnet.Contains(y)`: mask `y` with the net mask (clear the low
`log2 sz` bits, where `sz` is the block size `2^(32-p)`) and compare with
the (already masked) network address. -/
def containsNet (sz netAddr y : Nat) : Bool :=
  y / sz * sz == netAddr

/-- `ip.Mask(ipnet.Mask)`: clear the host bits of `base` for a block of
size `sz = 2^(32-p)`. -/
def maskAddr (base sz : Nat) : Nat := base / sz * sz

/-- The dispatch loop of `main`:
`for ip := ip.Mask(ipnet.Mask); ipnet.Contains(ip); inc(ip)`, on the
numeric view of the address.  `fuel` bounds the number of loop-condition
tests so that the loop's behaviour is a total function: `some l` means the
loop exited after visiting exactly the addresses of `l`; `none` means the
loop was still running after `fuel` tests. -/
def enumLoop (sz netAddr : Nat) : Nat → Nat → Option (List Nat)
  | 0, _ => none
  | fuel + 1, cur =>
      if containsNet sz netAddr cur then
        match enumLoop sz netAddr fuel (incNat cur) with
        | some rest => some (cur :: rest)
        | none => none
      else some []

/-- Larger fuel never changes an already-terminated enumeration. -/
theorem enumLoop_mono (sz netAddr : Nat) :
    ∀ fuel fuel' cur l, fuel ≤ fuel' →
      enumLoop sz netAddr fuel cur = some l →
      enumLoop sz netAddr fuel' cur = some l := by
  intro fuel
  induction fuel with
  | zero => intro fuel' cur l _ h; simp [enumLoop] at h
  | succ f ih =>
      intro fuel' cur l hle h
      obtain ⟨f', rfl⟩ : ∃ f', fuel' = f' + 1 := ⟨fuel' - 1, by omega⟩
      simp only [enumLoop] at h ⊢
      by_cases hc : containsNet sz netAddr cur
      · simp only [hc, if_true] at h ⊢
        cases hrec : enumLoop sz netAddr f (incNat cur) with
        | none => rw [hrec] at h; exact absurd h (by simp)
        | some rest =>
            rw [hrec] at h
            rw [ih f' (incNat cur) rest (by omega) hrec]
            exact h
      · simp only [hc, if_false] at h ⊢
        exact h

lemma containsNet_eq_true_iff {sz n y : Nat} :
    containsNet sz n y = true ↔ y / sz * sz = n := by
  simp [containsNet]

/-- Every address of the block (network address plus an offset below the
block size) satisfies the loop condition. -/
lemma containsNet_in_block {sz n : Nat} (hsz : 0 < sz) (hmul : n % sz = 0)
    {k : Nat} (hk : k < sz) : containsNet sz n (n + k) = true := by
  rw [containsNet_eq_true_iff]
  obtain ⟨q, rfl⟩ : ∃ q, n = sz * q :=
    ⟨n / sz, (Nat.mul_div_cancel' (Nat.dvd_of_mod_eq_zero hmul)).symm⟩
  rw [Nat.mul_add_div hsz, Nat.div_eq_of_lt hk]
  ring

/-- The first address past the block fails the loop condition. -/
lemma containsNet_after {sz n : Nat} (hsz : 0 < sz) (hmul : n % sz = 0) :
    containsNet sz n (n + sz) = false := by
  rw [Bool.eq_false_iff]
  intro hc
  rw [containsNet_eq_true_iff] at hc
  obtain ⟨q, rfl⟩ : ∃ q, n = sz * q :=
    ⟨n / sz, (Nat.mul_div_cancel' (Nat.dvd_of_mod_eq_zero hmul)).symm⟩
  rw [show sz * q + sz = sz * (q + 1) by ring, Nat.mul_div_cancel_left _ hsz] at hc
  nlinarith

/-- Address `0.0.0.0` fails the loop condition of any block with a
non-zero network address: when the last block of the address space wraps
to zero, the loop exits. -/
lemma containsNet_zero {sz n : Nat} (hn : n ≠ 0) :
    containsNet sz n 0 = false := by
  rw [Bool.eq_false_iff]
  intro hc
  rw [containsNet_eq_true_iff] at hc
  simp [Nat.zero_div] at hc
  exact hn hc.symm

/-- Core loop characterization: started `sz - j` addresses into a block of
size `sz` whose network address `n` is block-aligned and whose end does
not exceed the address space, the loop visits exactly the remaining `j`
addresses and exits, provided the block is not the whole address space. -/
lemma enumLoop_run (sz n : Nat) (hsz : 0 < sz) (hmul : n % sz = 0)
    (hle : n + sz ≤ 2 ^ 32) (hlt : sz < 2 ^ 32) :
    ∀ j, 1 ≤ j → j ≤ sz → ∀ fuel, j + 1 ≤ fuel →
      enumLoop sz n fuel (n + (sz - j)) = some (List.range' (n + (sz - j)) j) := by
  intro j
  induction j with
  | zero => intro h1; exact absurd h1 (by omega)
  | succ j ih =>
      intro _ hj fuel hfuel
      obtain ⟨f, rfl⟩ : ∃ f, fuel = f + 1 := ⟨fuel - 1, by omega⟩
      simp only [enumLoop]
      rw [containsNet_in_block hsz hmul (k := sz - (j + 1)) (by omega)]
      simp only [if_true]
      by_cases hj0 : j = 0
      · subst hj0
        obtain ⟨f2, rfl⟩ : ∃ f2, f = f2 + 1 := ⟨f - 1, by omega⟩
        by_cases hend : n + sz < 2 ^ 32
        · have hstep : incNat (n + (sz - 1)) = n + sz := by
            unfold incNat
            rw [Nat.mod_eq_of_lt (by omega)]
            omega
          rw [hstep]
          simp only [enumLoop]
          rw [containsNet_after hsz hmul]
          simp
        · have hEq : n + sz = 2 ^ 32 := by omega
          have hn0 : n ≠ 0 := by omega
          have hstep : incNat (n + (sz - 1)) = 0 := by
            unfold incNat
            rw [show n + (sz - 1) + 1 = 2 ^ 32 by omega]
            exact Nat.mod_self _
          rw [hstep]
          simp only [enumLoop]
          rw [containsNet_zero hn0]
          simp
      · have hstep : incNat (n + (sz - (j + 1))) = n + (sz - j) := by
          unfold incNat
          rw [Nat.mod_eq_of_lt (by omega)]
          omega
        rw [hstep, ih (by omega) (by omega) f (by omega)]
        rw [show n + (sz - (j + 1)) = n + (sz - j) - 1 by omega]
        rw [show List.range' (n + (sz - j) - 1) (j + 1) = (n + (sz - j) - 1) :: List.range' (n + (sz - j) - 1 + 1) j from List.range'_succ _ _ _ ▸ rfl]
        rw [show n + (sz - j) - 1 + 1 = n + (sz - j) by omega]

/-- Full loop characterization: for a block-aligned network address `n`
and block size `sz < 2^32`, the loop started at `n` with enough fuel
visits exactly `[n, n+1, ..., n+sz-1]` and exits. -/
theorem enumLoop_complete (sz n : Nat) (hsz : 0 < sz) (hmul : n % sz = 0)
    (hle : n + sz ≤ 2 ^ 32) (hlt : sz < 2 ^ 32) (fuel : Nat)
    (hfuel : sz + 1 ≤ fuel) :
    enumLoop sz n fuel n = some (List.range' n sz) := by
  have h := enumLoop_run sz n hsz hmul hle hlt sz (by omega) (le_refl _) fuel hfuel
  simpa using h

/-- For the whole-address-space block `0.0.0.0/0` the loop condition never
becomes false: the loop runs forever no matter how much fuel is granted. -/
lemma enumLoop_full_none : ∀ fuel cur, cur < 2 ^ 32 →
    enumLoop (2 ^ 32) 0 fuel cur = none := by
  intro fuel
  induction fuel with
  | zero => intro cur _; rfl
  | succ f ih =>
      intro cur hcur
      simp only [enumLoop]
      have hc : containsNet (2 ^ 32) 0 cur = true := by
        rw [containsNet_eq_true_iff, Nat.div_eq_of_lt hcur]
        simp
      rw [hc]
      simp only [if_true]
      rw [ih (incNat cur) (Nat.mod_lt _ (by norm_num))]

/-- Split a character list at every occurrence of `sep`, preserving empty
segments — the behaviour of Go `strings.Split` with a one-character
separator.  `main.go` splits the `-domains` flag on `","`; the CIDR
parser's models below split on `"/"` and `"."`. -/
def splitChars (sep : Char) : List Char → List (List Char)
  | [] => [[]]
  | c :: cs =>
      if c = sep then [] :: splitChars sep cs
      else
        match splitChars sep cs with
        | [] => [[c]]
        | g :: gs => (c :: g) :: gs

/-- Go `strings.Split(s, sep)` for a one-character separator. -/
def splitGo (s : String) (sep : Char) : List String :=
  (splitChars sep s.data).map (fun l => String.mk l)

/-- A non-empty all-digit character sequence read as a decimal number
(Go `dtoi`, which accepts leading zeros; used for the prefix length). -/
def parseDecimal (cs : List Char) : Option Nat :=
  if cs = [] then none
  else if cs.all Char.isDigit then
    some (cs.foldl (fun a c => a * 10 + (c.toNat - 48)) 0)
  else none

/-- One dotted-quad field of `net.ParseCIDR`'s IPv4 parser: non-empty,
digits only, value at most 255, and (since Go 1.17) no leading zero. -/
def parseOctet (cs : List Char) : Option Nat :=
  match cs with
  | [] => none
  | c :: rest =>
      if c = '0' ∧ rest ≠ [] then none
      else
        match parseDecimal (c :: rest) with
        | some v => if v ≤ 255 then some v else none
        | none => none

/-- The IPv4 branch of `net.ParseCIDR`'s address parser: exactly four
dot-separated octets, combined big-endian into one number below 2^32. -/
def parseIPv4 (cs : List Char) : Option Nat :=
  match splitChars '.' cs with
  | [f1, f2, f3, f4] =>
      match parseOctet f1, parseOctet f2, parseOctet f3, parseOctet f4 with
      | some a, some b, some c, some d =>
          some (((a * 256 + b) * 256 + c) * 256 + d)
      | _, _, _, _ => none
  | _ => none

/-- `net.ParseCIDR` restricted to IPv4 (the tool's supported address
family): address part and prefix part separated by `/`, prefix between 0
and 32.  (Go splits at the first `/` and then requires the prefix part to
be all digits, which rejects the same strings as requiring exactly one
`/`.)  Returns the numeric address and the prefix length. -/
def parseCIDR (s : String) : Option (Nat × Nat) :=
  match splitChars '/' s.data with
  | [addr, mask] =>
      match parseIPv4 addr, parseDecimal mask with
      | some ip, some p => if p ≤ 32 then some (ip, p) else none
      | _, _ => none
  | _ => none

lemma parseOctet_le {cs : List Char} {v : Nat}
    (h : parseOctet cs = some v) : v ≤ 255 := by
  unfold parseOctet at h
  split at h
  · cases h
  · split at h
    · cases h
    · split at h
      · split at h
        · cases h; assumption
        · cases h
      · cases h

lemma parseIPv4_lt {cs : List Char} {ip : Nat}
    (h : parseIPv4 cs = some ip) : ip < 2 ^ 32 := by
  unfold parseIPv4 at h
  split at h
  · split at h
    · cases h
      rename_i ha hb hc hd
      have := parseOctet_le ha
      have := parseOctet_le hb
      have := parseOctet_le hc
      have := parseOctet_le hd
      omega
    · cases h
  · cases h

/-- Anything `parseCIDR` accepts is a numeric address below 2^32 with a
prefix length of at most 32. -/
lemma parseCIDR_bounds {s : String} {ip p : Nat}
    (h : parseCIDR s = some (ip, p)) : ip < 2 ^ 32 ∧ p ≤ 32 := by
  unfold parseCIDR at h
  split at h
  · split at h
    · split at h
      · cases h
        rename_i hip hp hle
        exact ⟨parseIPv4_lt hip, by omega⟩
      · cases h
    · cases h
  · cases h

/-- One row of the `dns_queries` table (struct `DnsQuery` of `main.go`).
The timestamp is abstracted to a number supplied by the caller. -/
structure DnsQuery where
  timestamp : Nat
  ip : String
  domain : String
  query : String
  answer : String
deriving DecidableEq, Repr

/-- One network exchange attempted by `performDNSQuery`: the question name
put on the wire and the `host:port` string the query is sent to. -/
structure ExchangeCall where
  name : String
  server : String
deriving DecidableEq, Repr

/-- Count of leading characters satisfying `p`. -/
def countLeading (p : Char → Bool) : List Char → Nat
  | [] => 0
  | c :: cs => if p c then countLeading p cs + 1 else 0

/-- `dns.IsFqdn`: the string ends in a dot that is not escaped, i.e. the
dot is preceded by an even number of backslashes.  (Modelled per
character; Go measures the trailing run in bytes, which only differs on
multi-byte runes.) -/
def isFqdnGo (s : String) : Bool :=
  match s.data.reverse with
  | [] => false
  | c :: rest => c = '.' && countLeading (fun ch => ch = '\\') rest % 2 = 0

/-- `dns.Fqdn`: append a trailing dot unless the name is already fully
qualified. -/
def goFqdn (s : String) : String :=
  if isFqdnGo s then s else s ++ "."

/-- `net.JoinHostPort`: bracket the host when it contains a colon
(IPv6), otherwise plain `host:port`. -/
def joinHostPort (host port : String) : String :=
  if host.data.contains ':' then "[" ++ host ++ "]:" ++ port
  else host ++ ":" ++ port

/-- `net.IP.String` for a 4-byte address: the dotted quad. -/
def ipToString (ip : Nat) : String :=
  toString (ip / 2 ^ 24 % 256) ++ "." ++ toString (ip / 2 ^ 16 % 256) ++ "."
    ++ toString (ip / 2 ^ 8 % 256) ++ "." ++ toString (ip % 256)

/-- `dnsRRToString`: every answer resource record's text followed by a
newline, concatenated (empty string for an empty answer section). -/
def dnsRRToString (rrs : List String) : String :=
  rrs.foldl (fun acc r => acc ++ r ++ "\n") ""

/-- The network side of `performDNSQuery`: given the wire question name
and the `host:port` of the resolver, an exchange either fails (`none`,
covering timeouts and transport errors) or returns the textual answer
records.  This is the single external effect of `client.Exchange`. -/
def Exchanger : Type := String → String → Option (List String)

/-- The persistence side (`insertIntoDB`): whether the `INSERT` of a given
record succeeds.  On success the record is in the store; on failure the
function returns an error and the record is absent. -/
def Persister : Type := DnsQuery → Bool

/-- `performDNSQuery`: build the wire question (`dns.Fqdn(fqdn)`, type A),
send it to `ip:53`, and on success return the question description
(`name + " " + "A"`, from `dnsQuestionToString`) and the answer
description (from `dnsRRToString`).  The first component records the
attempted exchange. -/
def performDNSQuery (exch : Exchanger) (fqdn ipStr : String) :
    ExchangeCall × Option (String × String) :=
  let name := goFqdn fqdn
  let server := joinHostPort ipStr "53"
  match exch name server with
  | none => (⟨name, server⟩, none)
  | some rrs => (⟨name, server⟩, some (name ++ " A", dnsRRToString rrs))

/-- `queryAdditionalDNS`: query the raw additional domain (no encoded
token) against the host itself; insert the record on success.  Returns
the attempted exchanges, the records that reached the store, and whether
the function returned without error. -/
def queryAdditionalDNS (exch : Exchanger) (persist : Persister) (now : Nat)
    (ip : Nat) (additionalDomain : String) :
    List ExchangeCall × List DnsQuery × Bool :=
  match performDNSQuery exch additionalDomain (ipToString ip) with
  | (call, none) => ([call], [], false)
  | (call, some (q, a)) =>
      let r : DnsQuery := ⟨now, ipToString ip, additionalDomain, q, a⟩
      if persist r then ([call], [r], true) else ([call], [], false)

/-- The `for _, additionalDomain := range strings.Split(*domains, ",")`
loop of `queryDNS`: each domain is processed in order; a failure of one
iteration is logged and the loop continues. -/
def runAdditional (exch : Exchanger) (persist : Persister) (now : Nat)
    (ip : Nat) : List String → List ExchangeCall × List DnsQuery
  | [] => ([], [])
  | d :: ds =>
      let r := queryAdditionalDNS exch persist now ip d
      let rest := runAdditional exch persist now ip ds
      (r.1 ++ rest.1, r.2.1 ++ rest.2)

/-- `queryDNS`: the per-host task.  Encode the address, query
`encode(ip) + "." + domain` against the host; on exchange failure or
insert failure return early with an error; otherwise, when the
`-domains` flag is non-empty, run the additional-domain loop.  Returns
the attempted exchanges, the records that reached the store, and whether
the function returned without error. -/
def queryDNS (exch : Exchanger) (persist : Persister) (encode : Nat → String)
    (now : Nat) (ip : Nat) (domain domains : String) :
    List ExchangeCall × List DnsQuery × Bool :=
  let fqdn := encode ip ++ "." ++ domain
  match performDNSQuery exch fqdn (ipToString ip) with
  | (call, none) => ([call], [], false)
  | (call, some (q, a)) =>
      let r : DnsQuery := ⟨now, ipToString ip, domain, q, a⟩
      if persist r then
        if domains = "" then ([call], [r], true)
        else
          let more := runAdditional exch persist now ip (splitGo domains ',')
          (call :: more.1, r :: more.2, true)
      else ([call], [], false)

/-- The additional-domain list a task iterates over: empty when the flag
is empty (the loop is guarded by `*domains != ""`), otherwise the comma
split, empty segments included. -/
def addList (domains : String) : List String :=
  if domains = "" then [] else splitGo domains ','

/-- The record one additional-domain iteration contributes, `none` when
its exchange or its insert fails.  It depends only on that iteration's
own outcome. -/
def additionalOutcome (exch : Exchanger) (persist : Persister) (now : Nat)
    (ip : Nat) (d : String) : Option DnsQuery :=
  match exch (goFqdn d) (joinHostPort (ipToString ip) "53") with
  | none => none
  | some rrs =>
      let r : DnsQuery :=
        ⟨now, ipToString ip, d, goFqdn d ++ " A", dnsRRToString rrs⟩
      if persist r then some r else none

/-- The whole scan over a list of enumerated addresses: one `queryDNS`
task per address.  The record component is the multiset reaching the
store; the task order is irrelevant to its contents because every insert
is independent, so the dispatch order stands in for any interleaving of
the worker pool. -/
def scanAll (exch : Exchanger) (persist : Persister) (encode : Nat → String)
    (now : Nat) (domain domains : String) :
    List Nat → List ExchangeCall × List DnsQuery
  | [] => ([], [])
  | ip :: rest =>
      let r := queryDNS exch persist encode now ip domain domains
      let rs := scanAll exch persist encode now domain domains rest
      (r.1 ++ rs.1, r.2.1 ++ rs.2)

/-- The scan pipeline of `main` after flag parsing: parse the CIDR
(`log.Fatalf` on error, modelled as `Except.error` before anything else
happens), mask the base address, run the enumeration loop, and scan each
enumerated address.  A `fuel` bound makes the possibly diverging
enumeration a total function: the second error case is reachable only
when the loop is still running after `fuel` tests. -/
def runScan (exch : Exchanger) (persist : Persister) (encode : Nat → String)
    (now : Nat) (networkStr domain domains : String) (fuel : Nat) :
    Except String (List ExchangeCall × List DnsQuery) :=
  match parseCIDR networkStr with
  | none => Except.error "InvalidRangeError"
  | some (base, p) =>
      let sz := 2 ^ (32 - p)
      let start := maskAddr base sz
      match enumLoop sz start fuel start with
      | none => Except.error "EnumerationDidNotTerminate"
      | some ips =>
          Except.ok (scanAll exch persist encode now domain domains ips)

/-- State of the dispatch loop and worker pool of `main`: addresses not
yet dispatched (in enumeration order), tasks in flight (holding a
semaphore token between `semaphore <- struct{}{}` and `<-semaphore`),
tasks completed, and whether `wg.Wait()` has returned. -/
structure SchedState where
  pending : List Nat
  running : List Nat
  finished : List Nat
  waited : Bool
deriving DecidableEq, Repr

/-- Small-step semantics of the pool with concurrency limit `N` (the
buffered-channel semaphore capacity `*numGoroutines`):
  * `dispatch`: the loop body acquires a token — it blocks unless fewer
    than `N` tasks hold one — does `wg.Add(1)` and starts the goroutine
    for the next enumerated address;
  * `finish`: any in-flight task completes (successfully or not),
    releases its token and calls `wg.Done()`;
  * `wait`: `wg.Wait()` returns, which requires the dispatch loop to be
    done and the pending count to be zero. -/
inductive SchedStep (N : Nat) : SchedState → SchedState → Prop
  | dispatch (a : Nat) (rest : List Nat) (s : SchedState)
      (hp : s.pending = a :: rest) (hsem : s.running.length < N) :
      SchedStep N s ⟨rest, a :: s.running, s.finished, s.waited⟩
  | finish (a : Nat) (l1 l2 : List Nat) (s : SchedState)
      (hr : s.running = l1 ++ a :: l2) :
      SchedStep N s ⟨s.pending, l1 ++ l2, a :: s.finished, s.waited⟩
  | wait (s : SchedState) (hp : s.pending = []) (hr : s.running = [])
      (hw : s.waited = false) :
      SchedStep N s ⟨[], [], s.finished, true⟩

/-- Initial state: every enumerated address pending, nothing dispatched. -/
def initSched (addrs : List Nat) : SchedState := ⟨addrs, [], [], false⟩

/-- States the pool can reach from the initial state. -/
inductive Reachable (N : Nat) (addrs : List Nat) : SchedState → Prop
  | init : Reachable N addrs (initSched addrs)
  | step {s t : SchedState} :
      Reachable N addrs s → SchedStep N s t → Reachable N addrs t

/-- Pool invariant: the in-flight count never exceeds `N`; the pending,
in-flight and finished lists together are a permutation of the enumerated
addresses (each address is dispatched exactly once, none lost, none
duplicated); and once `wg.Wait()` has returned nothing is pending or in
flight. -/
theorem sched_inv {N : Nat} {addrs : List Nat} {s : SchedState}
    (h : Reachable N addrs s) :
    s.running.length ≤ N ∧
      (s.pending ++ s.running ++ s.finished).Perm addrs ∧
      (s.waited = true → s.pending = [] ∧ s.running = []) := by
  induction h with
  | init =>
      refine ⟨by simp [initSched], by simp [initSched], ?_⟩
      simp [initSched]
  | step _ hstep ih =>
      obtain ⟨ih1, ih2, ih3⟩ := ih
      cases hstep with
      | dispatch a rest s hp hsem =>
          refine ⟨by simpa using hsem, ?_, ?_⟩
          · rw [List.perm_iff_count] at ih2 ⊢
            intro x
            have hx := ih2 x
            rw [hp] at hx
            simp only [List.count_append, List.count_cons] at hx ⊢
            split_ifs at hx ⊢ <;> omega
          · intro hw
            rw [(ih3 hw).1] at hp
            cases hp
      | finish a l1 l2 s hr =>
          refine ⟨?_, ?_, ?_⟩
          · rw [hr] at ih1
            simp only [List.length_append, List.length_cons] at ih1 ⊢
            omega
          · rw [List.perm_iff_count] at ih2 ⊢
            intro x
            have hx := ih2 x
            rw [hr] at hx
            simp only [List.count_append, List.count_cons] at hx ⊢
            split_ifs at hx ⊢ <;> omega
          · intro hw
            rw [(ih3 hw).2] at hr
            cases l1 <;> cases hr
      | wait s hp hr hw =>
          refine ⟨by simp, ?_, fun _ => ⟨rfl, rfl⟩⟩
          rw [hp, hr] at ih2
          simpa using ih2

/-- Unfolding of the additional-domain loop: regardless of which
iterations fail, every domain of the list is attempted, in order, with
its raw name against the host itself; its record reaches the store
exactly when its own exchange and its own insert succeed. -/
lemma runAdditional_eq (exch : Exchanger) (persist : Persister)
    (now ip : Nat) (ds : List String) :
    runAdditional exch persist now ip ds =
      (ds.map (fun d =>
          ⟨goFqdn d, joinHostPort (ipToString ip) "53"⟩),
       ds.filterMap (additionalOutcome exch persist now ip)) := by
  induction ds with
  | nil => rfl
  | cons d ds ih =>
      simp only [runAdditional, ih, queryAdditionalDNS, performDNSQuery,
        additionalOutcome, List.map, List.filterMap]
      cases hx : exch (goFqdn d) (joinHostPort (ipToString ip) "53") with
      | none => simp
      | some rrs =>
          simp only []
          by_cases hper : persist ⟨now, ipToString ip, d,
              goFqdn d ++ " A", dnsRRToString rrs⟩
          · simp [hper]
          · simp [hper]

/-- The scan distributes over address-list concatenation: each task's
contribution is independent of its position. -/
lemma scanAll_append (exch : Exchanger) (persist : Persister)
    (encode : Nat → String) (now : Nat) (domain domains : String)
    (l1 l2 : List Nat) :
    scanAll exch persist encode now domain domains (l1 ++ l2) =
      ((scanAll exch persist encode now domain domains l1).1 ++
         (scanAll exch persist encode now domain domains l2).1,
       (scanAll exch persist encode now domain domains l1).2 ++
         (scanAll exch persist encode now domain domains l2).2) := by
  induction l1 with
  | nil => simp [scanAll]
  | cons ip rest ih => simp [scanAll, ih]

/-- A task whose primary exchange fails returns the error immediately:
one attempted exchange, no records, no additional-domain step. -/
lemma queryDNS_primary_fail (exch : Exchanger) (persist : Persister)
    (encode : Nat → String) (now ip : Nat) (domain domains : String)
    (h : exch (goFqdn (encode ip ++ "." ++ domain))
        (joinHostPort (ipToString ip) "53") = none) :
    queryDNS exch persist encode now ip domain domains =
      ([⟨goFqdn (encode ip ++ "." ++ domain),
         joinHostPort (ipToString ip) "53"⟩], [], false) := by
  simp [queryDNS, performDNSQuery, h]

/-- A task whose primary exchange succeeds but whose primary insert fails
returns the insert error immediately: one attempted exchange, no records,
no additional-domain step. -/
lemma queryDNS_insert_fail (exch : Exchanger) (persist : Persister)
    (encode : Nat → String) (now ip : Nat) (domain domains : String)
    (rrs : List String)
    (hx : exch (goFqdn (encode ip ++ "." ++ domain))
        (joinHostPort (ipToString ip) "53") = some rrs)
    (hper : persist ⟨now, ipToString ip, domain,
        goFqdn (encode ip ++ "." ++ domain) ++ " A",
        dnsRRToString rrs⟩ = false) :
    queryDNS exch persist encode now ip domain domains =
      ([⟨goFqdn (encode ip ++ "." ++ domain),
         joinHostPort (ipToString ip) "53"⟩], [], false) := by
  simp [queryDNS, performDNSQuery, hx, hper]

/-- A task whose primary step fully succeeds: the primary record reaches
the store, and the task then attempts every additional domain (the comma
split of a non-empty `-domains` flag, nothing otherwise), each
contributing its record exactly when its own exchange and insert
succeed. -/
lemma queryDNS_primary_ok (exch : Exchanger) (persist : Persister)
    (encode : Nat → String) (now ip : Nat) (domain domains : String)
    (rrs : List String)
    (hx : exch (goFqdn (encode ip ++ "." ++ domain))
        (joinHostPort (ipToString ip) "53") = some rrs)
    (hper : persist ⟨now, ipToString ip, domain,
        goFqdn (encode ip ++ "." ++ domain) ++ " A",
        dnsRRToString rrs⟩ = true) :
    queryDNS exch persist encode now ip domain domains =
      (⟨goFqdn (encode ip ++ "." ++ domain),
          joinHostPort (ipToString ip) "53"⟩ ::
        (addList domains).map (fun d =>
          ⟨goFqdn d, joinHostPort (ipToString ip) "53"⟩),
       (⟨now, ipToString ip, domain,
          goFqdn (encode ip ++ "." ++ domain) ++ " A",
          dnsRRToString rrs⟩ : DnsQuery) ::
        (addList domains).filterMap (additionalOutcome exch persist now ip),
       true) := by
  by_cases hd : domains = ""
  · simp [queryDNS, performDNSQuery, hx, hper, hd, addList]
  · simp [queryDNS, performDNSQuery, hx, hper, hd, addList,
      runAdditional_eq, splitGo]

/-- C3 (amended): for every valid IPv4 CIDR input with prefix length
p >= 1, the enumeration loop yields exactly the 2^(32-p) addresses of the
block, strictly ascending with no duplicates and no gaps, from the masked
network address to the block's last address inclusive (`List.range'` of
the network address and the block size); a /32 yields one address.  The
original claim quantified over all valid inputs including p = 0, where
the loop diverges (see the counterexample). -/
theorem C3_enumeration (s : String) (base p fuel : Nat)
    (hparse : parseCIDR s = some (base, p)) (hp : 1 ≤ p)
    (hfuel : 2 ^ (32 - p) + 1 ≤ fuel) :
    enumLoop (2 ^ (32 - p)) (maskAddr base (2 ^ (32 - p))) fuel
        (maskAddr base (2 ^ (32 - p))) =
      some (List.range' (maskAddr base (2 ^ (32 - p))) (2 ^ (32 - p))) ∧
    (List.range' (maskAddr base (2 ^ (32 - p))) (2 ^ (32 - p))).length =
      2 ^ (32 - p) := by
  obtain ⟨hbase, hp32⟩ := parseCIDR_bounds hparse
  set sz := 2 ^ (32 - p) with hszdef
  have hsz : 0 < sz := Nat.two_pow_pos _
  have hmul : maskAddr base sz % sz = 0 := Nat.mul_mod_left _ _
  have hdvd : sz ∣ 2 ^ 32 := pow_dvd_pow 2 (by omega)
  have h32 : sz * 2 ^ p = 2 ^ 32 := by rw [hszdef, ← pow_add]; congr 1; omega
  have hq : base / sz < 2 ^ p := by
    have h1 := Nat.div_lt_div_of_lt_of_dvd hdvd hbase
    rwa [← h32, Nat.mul_div_cancel_left _ hsz] at h1
  have hle : maskAddr base sz + sz ≤ 2 ^ 32 := by
    have h2 : (base / sz + 1) * sz ≤ 2 ^ p * sz :=
      Nat.mul_le_mul_right _ (by omega)
    calc maskAddr base sz + sz = (base / sz + 1) * sz := by
          unfold maskAddr; ring
      _ ≤ 2 ^ p * sz := h2
      _ = 2 ^ 32 := by rw [Nat.mul_comm]; exact h32
  have hlt : sz < 2 ^ 32 := by
    rw [hszdef]
    exact Nat.pow_lt_pow_right (by norm_num) (by omega)
  exact ⟨enumLoop_complete sz _ hsz hmul hle hlt fuel hfuel,
    List.length_range' _ _ _⟩

/-- C3 witness: the /32 network `10.0.0.1/32` enumerates to exactly the
one-element ascending range starting at its (masked) address. -/
theorem C3_witness :
    parseCIDR "10.0.0.1/32" = some (167772161, 32) ∧
      enumLoop (2 ^ (32 - 32)) (maskAddr 167772161 (2 ^ (32 - 32))) 2
          (maskAddr 167772161 (2 ^ (32 - 32))) =
        some (List.range' (maskAddr 167772161 (2 ^ (32 - 32)))
          (2 ^ (32 - 32))) ∧
      (List.range' (maskAddr 167772161 (2 ^ (32 - 32)))
          (2 ^ (32 - 32))).length = 2 ^ (32 - 32) :=
  ⟨by decide,
   (C3_enumeration "10.0.0.1/32" 167772161 32 2 (by decide) (by decide)
     (by decide)).1,
   (C3_enumeration "10.0.0.1/32" 167772161 32 2 (by decide) (by decide)
     (by decide)).2⟩

/-- C3 counterexample: on the valid input `0.0.0.0/0` (prefix length 0)
the claim fails — instead of yielding exactly 2^32 addresses, the
enumeration loop is still running after 2^32 + 2 condition tests (and, by
`enumLoop_mono`, after any number of tests), because the increment wraps
around into the block. -/
theorem C3_counterexample :
    parseCIDR "0.0.0.0/0" = some (0, 0) ∧
      enumLoop (2 ^ (32 - 0)) (maskAddr 0 (2 ^ (32 - 0))) (2 ^ 32 + 2)
        (maskAddr 0 (2 ^ (32 - 0))) = none := by
  constructor
  · decide
  · have hm : maskAddr 0 (2 ^ (32 - 0)) = 0 := by simp [maskAddr]
    rw [hm]
    exact enumLoop_full_none _ 0 (Nat.two_pow_pos 32)

/-- C4 (code bug at the failing input `0.0.0.0/0`): the claim — that the
loop terminates and never wraps past the highest address back into the
block — is what the program needs, but for the whole-address-space block
the code's increment wraps 255.255.255.255 to 0.0.0.0, the wrapped
address still satisfies `ipnet.Contains`, and the enumeration loop never
exits (still running after 2^32 + 1 condition tests, hence, by
`enumLoop_mono`, after any fuel). -/
theorem C4_full_range_divergence :
    parseCIDR "0.0.0.0/0" = some (0, 0) ∧
      incNat (2 ^ 32 - 1) = 0 ∧
      containsNet (2 ^ 32) 0 0 = true ∧
      enumLoop (2 ^ 32) 0 (2 ^ 32 + 1) 0 = none :=
  ⟨by decide, by decide, by decide,
   enumLoop_full_none _ 0 (Nat.two_pow_pos 32)⟩

/-- C9: a malformed CIDR string makes the scan fail fatally with the
invalid-range error before anything else happens: the pipeline returns
the error, so no task is dispatched, no DNS query is attempted and no
record is produced. -/
theorem C9_invalid_range (exch : Exchanger) (persist : Persister)
    (encode : Nat → String) (now : Nat) (s domain domains : String)
    (fuel : Nat) (h : parseCIDR s = none) :
    runScan exch persist encode now s domain domains fuel =
      Except.error "InvalidRangeError" := by
  simp [runScan, h]

/-- C9 witness: the malformed input `300.1.2.3/8` (octet out of range) is
rejected and the scan aborts with the invalid-range error. -/
theorem C9_witness :
    parseCIDR "300.1.2.3/8" = none ∧
      runScan (fun _ _ => some []) (fun _ => true) (fun _ => "tok") 0
        "300.1.2.3/8" "example.com" "" 10 =
        Except.error "InvalidRangeError" :=
  ⟨by decide, C9_invalid_range _ _ _ _ _ _ _ _ (by decide)⟩

/-- C1 counterexample: with an additional domain configured and an
exchanger that fails exactly on the primary question (and would succeed
on the additional domain, first conjunct), the task attempts only the one
primary exchange and emits nothing — the additional-domain query is
suppressed, contrary to the claim. -/
theorem C1_counterexample :
    (fun (q : String) (_ : String) =>
        if q = "tok.example.com." then none else some ([] : List String))
      "extra.org." "0.0.0.1:53" = some [] ∧
    queryDNS
        (fun q _ => if q = "tok.example.com." then none
          else some ([] : List String))
        (fun _ => true) (fun _ => "tok") 0 1 "example.com" "extra.org" =
      ([⟨"tok.example.com.", "0.0.0.1:53"⟩], [], false) := by
  exact ⟨by decide, by decide⟩

/-- C1 (amended): when the primary-domain exchange for an address fails,
the task returns the error immediately — it produces zero records for the
(address, primaryDomain) pair and attempts NO additional-domain query for
that address (the code returns before the additional-domain loop); the
failure does not block the tasks of other addresses, whose records are
unaffected. -/
theorem C1_primary_failure_aborts_task (exch : Exchanger)
    (persist : Persister) (encode : Nat → String) (now ip : Nat)
    (domain domains : String) (l1 l2 : List Nat)
    (h : exch (goFqdn (encode ip ++ "." ++ domain))
        (joinHostPort (ipToString ip) "53") = none) :
    queryDNS exch persist encode now ip domain domains =
      ([⟨goFqdn (encode ip ++ "." ++ domain),
         joinHostPort (ipToString ip) "53"⟩], [], false) ∧
    (scanAll exch persist encode now domain domains (l1 ++ ip :: l2)).2 =
      (scanAll exch persist encode now domain domains l1).2 ++
        (scanAll exch persist encode now domain domains l2).2 := by
  have h1 := queryDNS_primary_fail exch persist encode now ip domain domains h
  refine ⟨h1, ?_⟩
  rw [scanAll_append]
  simp [scanAll, h1]

/-- C1 witness: a concrete run of the amended statement, with an
exchanger that always fails. -/
theorem C1_witness :
    queryDNS (fun _ _ => none) (fun _ => true) (fun _ => "t") 0 1 "d"
        "e.org" =
      ([⟨goFqdn ("t" ++ "." ++ "d"), joinHostPort (ipToString 1) "53"⟩],
       [], false) ∧
    (scanAll (fun _ _ => none) (fun _ => true) (fun _ => "t") 0 "d" "e.org"
        ([2] ++ 1 :: [3])).2 =
      (scanAll (fun _ _ => none) (fun _ => true) (fun _ => "t") 0 "d"
          "e.org" [2]).2 ++
        (scanAll (fun _ _ => none) (fun _ => true) (fun _ => "t") 0 "d"
          "e.org" [3]).2 :=
  C1_primary_failure_aborts_task _ _ (fun _ => "t") 0 1 "d" "e.org" [2] [3]
    rfl

/-- C5 counterexample: with an exchanger that always succeeds and a store
that rejects exactly the primary record (and would accept the
additional-domain record, second conjunct), the task stops after the
failed insert: the remaining additional-domain query of the same
address's task does NOT take place, contrary to the claim. -/
theorem C5_counterexample :
    queryDNS (fun _ _ => some ["a"])
        (fun r => r.domain != "example.com") (fun _ => "tok") 7 1
        "example.com" "extra.org" =
      ([⟨"tok.example.com.", "0.0.0.1:53"⟩], [], false) ∧
    (fun (r : DnsQuery) => r.domain != "example.com")
      ⟨7, "0.0.0.1", "extra.org", "extra.org. A", "a\n"⟩ = true := by
  exact ⟨by decide, by decide⟩

/-- C5 (amended): a persistence failure is non-fatal to the scan — other
addresses' tasks run regardless (third conjunct) — and a persistence
failure on an ADDITIONAL-domain record does not stop the task's remaining
additional-domain queries: once the primary step succeeds, every
configured additional domain is attempted no matter how the store behaves
on the later records (first conjunct).  But a persistence failure on the
PRIMARY record aborts that address's task before any additional-domain
query (second conjunct). -/
theorem C5_persistence_failure_isolation (exch : Exchanger)
    (persist : Persister) (encode : Nat → String) (now ip : Nat)
    (domain domains : String) (l1 l2 : List Nat) (rrs : List String)
    (hx : exch (goFqdn (encode ip ++ "." ++ domain))
        (joinHostPort (ipToString ip) "53") = some rrs) :
    (persist ⟨now, ipToString ip, domain,
        goFqdn (encode ip ++ "." ++ domain) ++ " A",
        dnsRRToString rrs⟩ = true →
      (queryDNS exch persist encode now ip domain domains).1 =
        ⟨goFqdn (encode ip ++ "." ++ domain),
          joinHostPort (ipToString ip) "53"⟩ ::
          (addList domains).map (fun d =>
            ⟨goFqdn d, joinHostPort (ipToString ip) "53"⟩)) ∧
    (persist ⟨now, ipToString ip, domain,
        goFqdn (encode ip ++ "." ++ domain) ++ " A",
        dnsRRToString rrs⟩ = false →
      queryDNS exch persist encode now ip domain domains =
        ([⟨goFqdn (encode ip ++ "." ++ domain),
           joinHostPort (ipToString ip) "53"⟩], [], false)) ∧
    (scanAll exch persist encode now domain domains (l1 ++ ip :: l2)).2 =
      (scanAll exch persist encode now domain domains l1).2 ++
        ((queryDNS exch persist encode now ip domain domains).2.1 ++
          (scanAll exch persist encode now domain domains l2).2) := by
  refine ⟨?_, ?_, ?_⟩
  · intro hper
    rw [queryDNS_primary_ok exch persist encode now ip domain domains rrs hx
      hper]
  · intro hper
    exact queryDNS_insert_fail exch persist encode now ip domain domains rrs
      hx hper
  · rw [scanAll_append]
    simp [scanAll]

/-- C5 witness: a concrete run in which the store rejects exactly the
primary record: the task aborts with no records, while the surrounding
scan of other addresses is undisturbed. -/
theorem C5_witness :
    ((fun (r : DnsQuery) => r.domain != "d")
      ⟨0, ipToString 1, "d", goFqdn ("t" ++ "." ++ "d") ++ " A",
        dnsRRToString []⟩ = false) ∧
    queryDNS (fun _ _ => some []) (fun r => r.domain != "d")
        (fun _ => "t") 0 1 "d" "e.org" =
      ([⟨goFqdn ("t" ++ "." ++ "d"), joinHostPort (ipToString 1) "53"⟩],
       [], false) ∧
    (scanAll (fun _ _ => some []) (fun r => r.domain != "d")
        (fun _ => "t") 0 "d" "e.org" ([2] ++ 1 :: [3])).2 =
      (scanAll (fun _ _ => some []) (fun r => r.domain != "d")
          (fun _ => "t") 0 "d" "e.org" [2]).2 ++
        ((queryDNS (fun _ _ => some []) (fun r => r.domain != "d")
            (fun _ => "t") 0 1 "d" "e.org").2.1 ++
          (scanAll (fun _ _ => some []) (fun r => r.domain != "d")
            (fun _ => "t") 0 "d" "e.org" [3]).2) :=
  ⟨by decide,
   (C5_persistence_failure_isolation _ _ (fun _ => "t") 0 1 "d" "e.org"
     [2] [3] [] rfl).2.1 (by decide),
   (C5_persistence_failure_isolation _ _ (fun _ => "t") 0 1 "d" "e.org"
     [2] [3] [] rfl).2.2⟩

/-- C6 counterexample: when the primary exchange fails (e.g. a timeout),
the configured additional domains are not queried at all — the task
attempts only the primary exchange — even though the exchanger would
answer both additional names (second and third conjuncts); so the claim's
unconditional "the additional domains are queried" fails. -/
theorem C6_counterexample :
    queryDNS (fun q _ => if q = "t.example.net." then none
          else some ([] : List String))
        (fun _ => true) (fun _ => "t") 0 2 "example.net" "a.org,b.org" =
      ([⟨"t.example.net.", "0.0.0.2:53"⟩], [], false) ∧
    (fun (q : String) (_ : String) =>
        if q = "t.example.net." then none else some ([] : List String))
      "a.org." "0.0.0.2:53" = some [] ∧
    (fun (q : String) (_ : String) =>
        if q = "t.example.net." then none else some ([] : List String))
      "b.org." "0.0.0.2:53" = some [] := by
  exact ⟨by decide, by decide, by decide⟩

/-- C6 (amended): whenever the primary-domain exchange and the insert of
its record succeed, the additional domains are queried sequentially in
the caller-supplied (comma-split) order, each with the raw domain name as
the wire target (not token-prefixed) and the scanned address itself as
the resolver (first conjunct); the primary record is emitted regardless
of the additional domains' outcomes, and each additional pair's record is
present exactly when that pair's own exchange and insert succeed, so one
additional domain's failure never blocks the primary record or its
sibling domains' records (second conjunct). -/
theorem C6_additional_domain_isolation (exch : Exchanger)
    (persist : Persister) (encode : Nat → String) (now ip : Nat)
    (domain domains : String) (rrs : List String)
    (hx : exch (goFqdn (encode ip ++ "." ++ domain))
        (joinHostPort (ipToString ip) "53") = some rrs)
    (hper : persist ⟨now, ipToString ip, domain,
        goFqdn (encode ip ++ "." ++ domain) ++ " A",
        dnsRRToString rrs⟩ = true)
    (hne : domains ≠ "") :
    (queryDNS exch persist encode now ip domain domains).1 =
      ⟨goFqdn (encode ip ++ "." ++ domain),
        joinHostPort (ipToString ip) "53"⟩ ::
        (splitGo domains ',').map (fun d =>
          ⟨goFqdn d, joinHostPort (ipToString ip) "53"⟩) ∧
    (queryDNS exch persist encode now ip domain domains).2.1 =
      (⟨now, ipToString ip, domain,
         goFqdn (encode ip ++ "." ++ domain) ++ " A",
         dnsRRToString rrs⟩ : DnsQuery) ::
        (splitGo domains ',').filterMap
          (additionalOutcome exch persist now ip) := by
  rw [queryDNS_primary_ok exch persist encode now ip domain domains rrs hx
    hper]
  simp [addList, hne]

/-- C6 witness: two additional domains, the first answered and the second
timing out: the conclusion of the amended statement at a concrete
input. -/
theorem C6_witness :
    (queryDNS (fun q _ => if q = "b.org." then none
          else some ([] : List String))
        (fun _ => true) (fun _ => "t") 0 1 "d" "a.org,b.org").1 =
      ⟨goFqdn ("t" ++ "." ++ "d"), joinHostPort (ipToString 1) "53"⟩ ::
        (splitGo "a.org,b.org" ',').map (fun d =>
          ⟨goFqdn d, joinHostPort (ipToString 1) "53"⟩) ∧
    (queryDNS (fun q _ => if q = "b.org." then none
          else some ([] : List String))
        (fun _ => true) (fun _ => "t") 0 1 "d" "a.org,b.org").2.1 =
      (⟨0, ipToString 1, "d", goFqdn ("t" ++ "." ++ "d") ++ " A",
         dnsRRToString []⟩ : DnsQuery) ::
        (splitGo "a.org,b.org" ',').filterMap
          (additionalOutcome
            (fun q _ => if q = "b.org." then none
              else some ([] : List String))
            (fun _ => true) 0 1) :=
  C6_additional_domain_isolation _ _ (fun _ => "t") 0 1 "d" "a.org,b.org"
    [] (by decide) (by decide) (by decide)

/-- C7: a successful primary-domain exchange (whose record the store
accepts) contributes exactly one record, at the head of the task's
records: its domain field is the primary domain, its ip field the textual
address, and its query field starts with `encode(ip) ++ "." ++ domain` —
the token-prefixed name — followed only by the qualifying dot (when
added) and the question-type suffix; the exchange itself is sent to the
scanned address on port 53 (head of the attempted calls). -/
theorem C7_primary_record (exch : Exchanger) (persist : Persister)
    (encode : Nat → String) (now ip : Nat) (domain domains : String)
    (rrs : List String)
    (hx : exch (goFqdn (encode ip ++ "." ++ domain))
        (joinHostPort (ipToString ip) "53") = some rrs)
    (hper : persist ⟨now, ipToString ip, domain,
        goFqdn (encode ip ++ "." ++ domain) ++ " A",
        dnsRRToString rrs⟩ = true) :
    (queryDNS exch persist encode now ip domain domains).2.1 =
      (⟨now, ipToString ip, domain,
         goFqdn (encode ip ++ "." ++ domain) ++ " A",
         dnsRRToString rrs⟩ : DnsQuery) ::
        (addList domains).filterMap
          (additionalOutcome exch persist now ip) ∧
    (∃ t, goFqdn (encode ip ++ "." ++ domain) ++ " A" =
        (encode ip ++ "." ++ domain) ++ t) ∧
    (queryDNS exch persist encode now ip domain domains).1.head? =
      some ⟨goFqdn (encode ip ++ "." ++ domain),
        joinHostPort (ipToString ip) "53"⟩ := by
  have h := queryDNS_primary_ok exch persist encode now ip domain domains
    rrs hx hper
  refine ⟨?_, ?_, ?_⟩
  · rw [h]
  · by_cases hf : isFqdnGo (encode ip ++ "." ++ domain)
    · exact ⟨" A", by rw [goFqdn, if_pos hf]⟩
    · exact ⟨"." ++ " A", by rw [goFqdn, if_neg hf, String.append_assoc]⟩
  · rw [h]
    rfl

/-- C7 witness: the concluded record shape at a concrete input, all
queries answered and all inserts accepted. -/
theorem C7_witness :
    (queryDNS (fun _ _ => some ["ans"]) (fun _ => true) (fun _ => "tok")
        3 1 "example.com" "").2.1 =
      (⟨3, ipToString 1, "example.com",
         goFqdn ("tok" ++ "." ++ "example.com") ++ " A",
         dnsRRToString ["ans"]⟩ : DnsQuery) ::
        (addList "").filterMap
          (additionalOutcome (fun _ _ => some ["ans"]) (fun _ => true)
            3 1) ∧
    (∃ t, goFqdn ("tok" ++ "." ++ "example.com") ++ " A" =
        ("tok" ++ "." ++ "example.com") ++ t) ∧
    (queryDNS (fun _ _ => some ["ans"]) (fun _ => true) (fun _ => "tok")
        3 1 "example.com" "").1.head? =
      some ⟨goFqdn ("tok" ++ "." ++ "example.com"),
        joinHostPort (ipToString 1) "53"⟩ :=
  C7_primary_record _ _ (fun _ => "tok") 3 1 "example.com" "" ["ans"] rfl
    (by decide)

/-- Helper for C8: a `filterMap` whose function succeeds on every element
keeps the list's length. -/
lemma length_filterMap_of_isSome {α β : Type} (f : α → Option β)
    (l : List α) (h : ∀ a ∈ l, (f a).isSome = true) :
    (l.filterMap f).length = l.length := by
  induction l with
  | nil => rfl
  | cons a l ih =>
      obtain ⟨b, hb⟩ := Option.isSome_iff_exists.mp (h a (by simp))
      simp only [List.filterMap, hb, List.length_cons]
      rw [ih (fun x hx => h x (by simp [hx]))]

/-- C10: when the `-domains` flag is empty the additional-domain loop is
skipped and a task attempts exactly one (primary) exchange, whatever its
outcome (first conjunct).  A non-empty flag is comma-split with empty
segments preserved: `"example.com,"` splits into the real domain and an
empty segment (second conjunct), so every host gets an extra query whose
target name is empty (put on the wire as `"."` by the qualifier), and on
success the store receives a record whose domain field is the empty
string (third conjunct). -/
theorem C10_domains_flag (exch : Exchanger) (persist : Persister)
    (encode : Nat → String) (now ip : Nat) (domain : String) :
    (queryDNS exch persist encode now ip domain "").1 =
      [⟨goFqdn (encode ip ++ "." ++ domain),
        joinHostPort (ipToString ip) "53"⟩] ∧
    splitGo "example.com," ',' = ["example.com", ""] ∧
    (∀ rrs rrs2 : List String,
      exch (goFqdn (encode ip ++ "." ++ domain))
          (joinHostPort (ipToString ip) "53") = some rrs →
      persist ⟨now, ipToString ip, domain,
          goFqdn (encode ip ++ "." ++ domain) ++ " A",
          dnsRRToString rrs⟩ = true →
      exch (goFqdn "") (joinHostPort (ipToString ip) "53") = some rrs2 →
      persist ⟨now, ipToString ip, "", goFqdn "" ++ " A",
          dnsRRToString rrs2⟩ = true →
      (queryDNS exch persist encode now ip domain "example.com,").1 =
        [⟨goFqdn (encode ip ++ "." ++ domain),
           joinHostPort (ipToString ip) "53"⟩,
         ⟨goFqdn "example.com", joinHostPort (ipToString ip) "53"⟩,
         ⟨goFqdn "", joinHostPort (ipToString ip) "53"⟩] ∧
      (⟨now, ipToString ip, "", goFqdn "" ++ " A", dnsRRToString rrs2⟩ :
          DnsQuery) ∈
        (queryDNS exch persist encode now ip domain "example.com,").2.1 ∧
      (⟨now, ipToString ip, "", goFqdn "" ++ " A",
          dnsRRToString rrs2⟩ : DnsQuery).domain = "") := by
  refine ⟨?_, by decide, ?_⟩
  · cases hx : exch (goFqdn (encode ip ++ "." ++ domain))
        (joinHostPort (ipToString ip) "53") with
    | none => rw [queryDNS_primary_fail _ _ _ _ _ _ _ hx]
    | some rrs =>
        by_cases hper : persist ⟨now, ipToString ip, domain,
            goFqdn (encode ip ++ "." ++ domain) ++ " A",
            dnsRRToString rrs⟩ = true
        · rw [queryDNS_primary_ok _ _ _ _ _ _ _ rrs hx hper]
          simp [addList]
        · rw [queryDNS_insert_fail _ _ _ _ _ _ _ rrs hx
            (by simpa using hper)]
  · intro rrs rrs2 hx hper hx2 hper2
    have h := queryDNS_primary_ok exch persist encode now ip domain
      "example.com," rrs hx hper
    have hsplit : addList "example.com," = ["example.com", ""] := by decide
    have hout : additionalOutcome exch persist now ip "" =
        some ⟨now, ipToString ip, "", goFqdn "" ++ " A",
          dnsRRToString rrs2⟩ := by
      simp [additionalOutcome, hx2, hper2]
    refine ⟨?_, ?_, rfl⟩
    · rw [h, hsplit]
      rfl
    · rw [h, hsplit]
      refine List.mem_cons_of_mem _ (List.mem_filterMap.mpr ⟨"", ?_, hout⟩)
      simp

/-- Helper for C8: when every exchange is answered and every insert is
accepted, one task stores exactly `1 + D` records, `D` being the number
of configured additional domains. -/
lemma queryDNS_all_ok_length (exch : Exchanger) (persist : Persister)
    (encode : Nat → String) (now ip : Nat) (domain domains : String)
    (hx : ∀ q s, (exch q s).isSome = true)
    (hper : ∀ r, persist r = true) :
    (queryDNS exch persist encode now ip domain domains).2.1.length =
      1 + (addList domains).length := by
  obtain ⟨rrs, hrrs⟩ := Option.isSome_iff_exists.mp
    (hx (goFqdn (encode ip ++ "." ++ domain))
      (joinHostPort (ipToString ip) "53"))
  rw [queryDNS_primary_ok exch persist encode now ip domain domains rrs hrrs
    (hper _)]
  simp only [List.length_cons]
  rw [length_filterMap_of_isSome]
  · omega
  · intro d _
    obtain ⟨rrs2, hrrs2⟩ := Option.isSome_iff_exists.mp
      (hx (goFqdn d) (joinHostPort (ipToString ip) "53"))
    simp [additionalOutcome, hrrs2, hper]

/-- C8: when every query and every persistence attempt succeeds, a full
scan of `A` addresses with `D` additional domains configured puts exactly
`A * (1 + D)` records in the store. -/
theorem C8_record_count (exch : Exchanger) (persist : Persister)
    (encode : Nat → String) (now : Nat) (domain domains : String)
    (ips : List Nat)
    (hx : ∀ q s, (exch q s).isSome = true)
    (hper : ∀ r, persist r = true) :
    (scanAll exch persist encode now domain domains ips).2.length =
      ips.length * (1 + (addList domains).length) := by
  induction ips with
  | nil => simp [scanAll]
  | cons ip rest ih =>
      simp only [scanAll, List.length_append, List.length_cons]
      rw [queryDNS_all_ok_length exch persist encode now ip domain domains
        hx hper, ih]
      ring

/-- C8 witness: the /30 block starting at 10.0.0.0 — four addresses —
with one additional domain, every query answered and every insert
accepted, stores exactly 8 records. -/
theorem C8_witness :
    (scanAll (fun _ _ => some []) (fun _ => true) (fun _ => "tok") 0
        "example.com" "example.org"
        [167772160, 167772161, 167772162, 167772163]).2.length = 8 := by
  rw [C8_record_count (fun _ _ => some []) (fun _ => true) (fun _ => "tok")
    0 "example.com" "example.org"
    [167772160, 167772161, 167772162, 167772163]
    (fun _ _ => rfl) (fun _ => rfl)]
  decide

/-- C2: for every concurrency limit `N ≥ 1` and every enumerated address
sequence, in every reachable pool state at most `N` tasks are in flight
(hold a semaphore token while running the per-host coordinator); the
pending, in-flight and finished lists together are always a permutation
of the address sequence — every address is dispatched exactly once, none
lost, none duplicated; `wg.Wait()` can only have returned with nothing
pending and nothing in flight, and then the finished tasks are exactly
the enumerated addresses. -/
theorem C2_bounded_pool (N : Nat) (addrs : List Nat) (s : SchedState)
    (hN : 1 ≤ N) (h : Reachable N addrs s) :
    s.running.length ≤ N ∧
      (s.pending ++ s.running ++ s.finished).Perm addrs ∧
      (s.waited = true → s.pending = [] ∧ s.running = []) ∧
      (s.waited = true → s.finished.Perm addrs) := by
  obtain ⟨h1, h2, h3⟩ := sched_inv h
  refine ⟨h1, h2, h3, ?_⟩
  intro hw
  obtain ⟨hp, hr⟩ := h3 hw
  rw [hp, hr] at h2
  simpa using h2

/-- C2 witness: with limit 2 and addresses `[1, 2, 3]`, the state after
dispatching the first address is reachable and satisfies the pool
invariants. -/
theorem C2_witness :
    (SchedState.mk [2, 3] [1] [] false).running.length ≤ 2 ∧
      ((SchedState.mk [2, 3] [1] [] false).pending ++
          (SchedState.mk [2, 3] [1] [] false).running ++
          (SchedState.mk [2, 3] [1] [] false).finished).Perm [1, 2, 3] ∧
      ((SchedState.mk [2, 3] [1] [] false).waited = true →
        (SchedState.mk [2, 3] [1] [] false).pending = [] ∧
          (SchedState.mk [2, 3] [1] [] false).running = []) ∧
      ((SchedState.mk [2, 3] [1] [] false).waited = true →
        (SchedState.mk [2, 3] [1] [] false).finished.Perm [1, 2, 3]) :=
  C2_bounded_pool 2 [1, 2, 3] (SchedState.mk [2, 3] [1] [] false)
    (by decide)
    (Reachable.step Reachable.init
      (SchedStep.dispatch 1 [2, 3] (initSched [1, 2, 3]) rfl (by decide)))

/-- C10 witness: a concrete run — an empty flag gives the single primary
exchange; the flag `"example.com,"` gives the primary exchange plus one
exchange per split segment, including the empty one, whose stored record
has an empty domain field. -/
theorem C10_witness :
    (queryDNS (fun _ _ => some []) (fun _ => true) (fun _ => "tok") 0 1
        "d" "").1 =
      [⟨goFqdn ("tok" ++ "." ++ "d"), joinHostPort (ipToString 1) "53"⟩] ∧
    splitGo "example.com," ',' = ["example.com", ""] ∧
    ((queryDNS (fun _ _ => some []) (fun _ => true) (fun _ => "tok") 0 1
        "d" "example.com,").1 =
      [⟨goFqdn ("tok" ++ "." ++ "d"), joinHostPort (ipToString 1) "53"⟩,
       ⟨goFqdn "example.com", joinHostPort (ipToString 1) "53"⟩,
       ⟨goFqdn "", joinHostPort (ipToString 1) "53"⟩] ∧
    (⟨0, ipToString 1, "", goFqdn "" ++ " A", dnsRRToString []⟩ :
        DnsQuery) ∈
      (queryDNS (fun _ _ => some []) (fun _ => true) (fun _ => "tok") 0 1
        "d" "example.com,").2.1 ∧
    (⟨0, ipToString 1, "", goFqdn "" ++ " A", dnsRRToString []⟩ :
        DnsQuery).domain = "") :=
  ⟨(C10_domains_flag (fun _ _ => some []) (fun _ => true) (fun _ => "tok")
      0 1 "d").1,
   (C10_domains_flag (fun _ _ => some []) (fun _ => true) (fun _ => "tok")
      0 1 "d").2.1,
   (C10_domains_flag (fun _ _ => some []) (fun _ => true) (fun _ => "tok")
      0 1 "d").2.2 [] [] rfl rfl rfl rfl⟩
